import Mathlib

/-!
Verification of the `TorchProxy` cross-runtime call bridge
(`orttraining/orttraining/core/framework/torch/torch_proxy.h`).

The repository ships only the header, which fixes the public interface:
the singleton accessor `GetInstance`, the `Forward`/`Backward` signatures
(both returning `void`, with `diff_ctx` / `returned_ortvalues` /
`return_args` out-parameters), the private constructor/destructor, the
`ORT_DISALLOW_COPY_ASSIGNMENT_AND_MOVE` line, the `PythonObjectPtr`
scoped-ownership convention and the `mutex_` member whose comment states
that all member functions are exclusively used because Python has a
global interpreter lock.  The method bodies live in a translation unit
that is not part of this tree, so the behavioural definitions below are
modelled from the specification document, while the declaration-level
facts are embedded directly from the header.
-/

namespace TorchBridge

/-- Native tensor value (`OrtValue`): an opaque container; only identity
matters to the bridge, so it is modelled as a numeric payload. -/
structure OrtValue where
  val : Nat
  deriving DecidableEq, Repr

/-! ## Embedding of the header declarations (`torch_proxy.h`) -/

/-- C++ types occurring in the `TorchProxy` method signatures. -/
inductive CppType where
  | void
  | boolTy
  | stringRef
  | voidPtr
  | voidPtrPtr
  | vecInt64
  | vecOptOrtValue
  | vecVoidPtr
  | vecOrtValueRef
  deriving DecidableEq, Repr

/-- One formal parameter of a declared method. -/
structure CppParam where
  pname : String
  ptype : CppType
  deriving DecidableEq, Repr

/-- Parameter list of `TorchProxy::Forward` as declared in the header. -/
def forwardParams : List CppParam :=
  [⟨"func_name", CppType.stringRef⟩,
   ⟨"callback", CppType.voidPtr⟩,
   ⟨"requires_grads", CppType.vecInt64⟩,
   ⟨"tensor_args", CppType.vecOptOrtValue⟩,
   ⟨"tensor_indices", CppType.vecInt64⟩,
   ⟨"obj_args", CppType.vecVoidPtr⟩,
   ⟨"obj_indices", CppType.vecInt64⟩,
   ⟨"is_training_mode", CppType.boolTy⟩,
   ⟨"inplace_map", CppType.vecInt64⟩,
   ⟨"invoke_id", CppType.stringRef⟩,
   ⟨"diff_ctx", CppType.voidPtrPtr⟩,
   ⟨"returned_ortvalues", CppType.vecOrtValueRef⟩]

/-- Declared return type of `TorchProxy::Forward`. -/
def forwardRet : CppType := CppType.void

/-- Parameter list of `TorchProxy::Backward` as declared in the header. -/
def backwardParams : List CppParam :=
  [⟨"func_name", CppType.stringRef⟩,
   ⟨"callback", CppType.voidPtr⟩,
   ⟨"tensor_args", CppType.vecOptOrtValue⟩,
   ⟨"tensor_indices", CppType.vecInt64⟩,
   ⟨"obj_args", CppType.vecVoidPtr⟩,
   ⟨"obj_indices", CppType.vecInt64⟩,
   ⟨"inplace_map", CppType.vecInt64⟩,
   ⟨"invoke_id", CppType.stringRef⟩,
   ⟨"return_args", CppType.vecOrtValueRef⟩]

/-- Declared return type of `TorchProxy::Backward`. -/
def backwardRet : CppType := CppType.void

/-- C++ member access level. -/
inductive Access where
  | pub
  | priv
  deriving DecidableEq, Repr

/-- A member declaration of the `TorchProxy` class: its name, its access
level, and whether it is a deleted special member. -/
structure MemberDecl where
  mname : String
  access : Access
  deleted : Bool
  deriving DecidableEq, Repr

/-- Member declarations of `class TorchProxy` as written in the header.
The four deleted special members expand from
`ORT_DISALLOW_COPY_ASSIGNMENT_AND_MOVE(TorchProxy)`; the macro body is
not under this tree, so those four entries are modelled from the spec and
the macro's name (copy constructor, copy assignment, move constructor and
move assignment are all disallowed). -/
def torchProxyMembers : List MemberDecl :=
  [⟨"GetInstance", Access.pub, false⟩,
   ⟨"Forward", Access.pub, false⟩,
   ⟨"Backward", Access.pub, false⟩,
   ⟨"TorchProxy", Access.priv, false⟩,
   ⟨"~TorchProxy", Access.priv, false⟩,
   ⟨"TorchProxy(const TorchProxy&)", Access.priv, true⟩,
   ⟨"operator=(const TorchProxy&)", Access.priv, true⟩,
   ⟨"TorchProxy(TorchProxy&&)", Access.priv, true⟩,
   ⟨"operator=(TorchProxy&&)", Access.priv, true⟩,
   ⟨"mutex_", Access.priv, false⟩]

/-! ## Singleton semantics of `GetInstance`

`GetInstance` returns a reference to a function-local `static TorchProxy
proxy;`: lazily constructed on the first call, and every call returns the
same object.  The process-wide state records whether the unique instance
has been constructed yet, identified by an id. -/

/-- Process-wide singleton state: `inst` is the id of the constructed
`TorchProxy` instance, or `none` before the first `GetInstance` call. -/
structure SingletonState where
  inst : Option Nat
  deriving DecidableEq, Repr

/-- Semantics of `TorchProxy::GetInstance`: a Meyers singleton.  The
function-local static is constructed on first use and every later call
returns the same instance. -/
def GetInstance : SingletonState → SingletonState × Nat
  | ⟨some i⟩ => (⟨some i⟩, i)
  | ⟨none⟩ => (⟨some 0⟩, 0)

/-- Runs `n` successive `GetInstance` calls, collecting the returned
instance ids in order. -/
def runGetInstance : Nat → SingletonState → SingletonState × List Nat
  | 0, s => (s, [])
  | n + 1, s =>
      let p := GetInstance s
      let q := runGetInstance n p.1
      (q.1, p.2 :: q.2)

/-! ## Behavioural model of the bridge

The bodies of `Forward` and `Backward` are not part of this tree, so the
definitions below are modelled from the specification: the control flow
acquire lock → marshal arguments → invoke target → unmarshal results →
release lock, the `[0, N)` partition check on the index lists, the
`PythonObjectPtr` scoped reference-count discipline, and the conversion
of managed errors to native ones. -/

/-- Managed-runtime value crossing the boundary: the runtime's "no value"
sentinel (`Py_None`), a managed tensor wrapper of a native tensor, or an
opaque object handle. -/
inductive PyValue where
  | pyNone
  | tensor (v : OrtValue)
  | obj (h : Nat)
  deriving DecidableEq, Repr

/-- Modelled from the spec: the error taxonomy of the bridge.
`argumentLayout` is a malformed index partition detected locally;
`managedInvocation` converts an error raised by the managed target and
carries the target name and `invoke_id`; `resultConversion` reports a
return value that could not be converted, with its positional index and
`invoke_id`. -/
inductive BridgeError where
  | argumentLayout (func_name : String)
  | managedInvocation (func_name : String) (invoke_id : String) (msg : String)
  | resultConversion (idx : Nat) (invoke_id : String)
  deriving DecidableEq, Repr

/-- Observable boundary events of one bridge call, in order: acquiring
the global lock, entering the managed runtime for the target invocation,
and releasing the global lock. -/
inductive Event where
  | lockAcquired
  | managedCall (func_name : String) (invoke_id : String)
  | lockReleased
  deriving DecidableEq, Repr

/-- Reference-count heap of the managed runtime: each opaque handle's
current reference count. -/
def RefCounts : Type := Nat → Int

/-- State threaded through one bridge call: whether this call holds the
global lock, the managed heap's reference counts, the next fresh handle
id the runtime will hand out, and the event log. -/
structure BridgeState where
  lockHeld : Bool
  rc : RefCounts
  nextHandle : Nat
  events : List Event

/-- Increments the reference count of handle `h` (the `Py_XXX` creation
convention: a newly created object arrives with its count bumped). -/
def incRef (rc : RefCounts) (h : Nat) : RefCounts :=
  fun x => if x = h then rc x + 1 else rc x

/-- Decrements the reference count of handle `h`. -/
def decRef (rc : RefCounts) (h : Nat) : RefCounts :=
  fun x => if x = h then rc x - 1 else rc x

/-- `PythonObjectDeleter` from the header: the deleter installed in every
`PythonObjectPtr`, decreasing the wrapped object's reference count by one
when the owning pointer's lifetime ends. -/
def PythonObjectDeleter (rc : RefCounts) (h : Nat) : RefCounts :=
  decRef rc h

/-- Increments the counts of all handles in `hs`. -/
def incRefAll (rc : RefCounts) (hs : List Nat) : RefCounts :=
  hs.foldl incRef rc

/-- Runs the `PythonObjectDeleter` of every guard in `hs`: the scope of
all the wrapping `PythonObjectPtr`s ends. -/
def releaseGuards (rc : RefCounts) (hs : List Nat) : RefCounts :=
  hs.foldl PythonObjectDeleter rc

/-- Modelled from the spec: the `[0, N)` partition check on the index
lists, `N` being the total number of positional slots.  It holds exactly
when every position in `[0, N)` lies in exactly one of `tensor_indices`
and `obj_indices` (no overlap, no gap). -/
def isPartition (tensor_indices obj_indices : List Int) : Bool :=
  let N := tensor_indices.length + obj_indices.length
  (List.range N).all fun i =>
    tensor_indices.contains (Int.ofNat i) != obj_indices.contains (Int.ofNat i)

/-- Modelled from the spec: marshals the positional slot `i` of the call
frame.  A tensor slot becomes the managed tensor wrapper when present and
the "no value" sentinel when absent; an object slot passes the opaque
handle through unchanged.  Returns `none` when the slot is not covered
or the index lists do not match the argument lists. -/
def marshalSlot (tensor_args : List (Option OrtValue)) (tensor_indices : List Int)
    (obj_args : List Nat) (obj_indices : List Int) (i : Nat) : Option PyValue :=
  match tensor_indices.indexOf? (Int.ofNat i) with
  | some j =>
      match tensor_args.get? j with
      | some (some v) => some (PyValue.tensor v)
      | some none => some PyValue.pyNone
      | none => none
  | none =>
      match obj_indices.indexOf? (Int.ofNat i) with
      | some j => (obj_args.get? j).map PyValue.obj
      | none => none

/-- Modelled from the spec: single pass over the combined index space
`0 .. N-1` assembling the managed call frame's positional arguments. -/
def marshalArgs (tensor_args : List (Option OrtValue)) (tensor_indices : List Int)
    (obj_args : List Nat) (obj_indices : List Int) : Option (List PyValue) :=
  (List.range (tensor_indices.length + obj_indices.length)).mapM
    (marshalSlot tensor_args tensor_indices obj_args obj_indices)

/-- Number of present tensor arguments: each of these gets a bridge-created
managed wrapper object, wrapped in a `PythonObjectPtr` guard. -/
def presentTensors (tensor_args : List (Option OrtValue)) : Nat :=
  (tensor_args.filterMap id).length

/-- Modelled from the spec: the call frame handed to the managed forward
target: the positional arguments plus, for `Forward` only,
`requires_grads` (aligned to tensor-slot order), `is_training_mode` and
`inplace_map`, with `invoke_id` for correlation. -/
structure ForwardFrame where
  args : List PyValue
  requires_grads : List Int
  is_training_mode : Bool
  inplace_map : List Int
  invoke_id : String
  deriving DecidableEq, Repr

/-- Modelled from the spec: the call frame handed to the managed backward
target: the positional arguments plus `inplace_map` only, with
`invoke_id` for correlation.  It has no `requires_grads` field and no
training-mode field. -/
structure BackwardFrame where
  args : List PyValue
  inplace_map : List Int
  invoke_id : String
  deriving DecidableEq, Repr

/-- Outcome of invoking the managed forward target: either a
differentiation-context handle plus a tuple of outputs, or a raised
managed error. -/
inductive ForwardOutcome where
  | ok (ctx : Nat) (outputs : List PyValue)
  | raised (msg : String)
  deriving DecidableEq, Repr

/-- Outcome of invoking the managed backward target: a tuple of gradient
outputs, or a raised managed error. -/
inductive BackwardOutcome where
  | ok (outputs : List PyValue)
  | raised (msg : String)
  deriving DecidableEq, Repr

/-- Arguments of one `Forward` call, mirroring the header signature's
in-parameters. -/
structure ForwardDescriptor where
  func_name : String
  callback : Nat
  requires_grads : List Int
  tensor_args : List (Option OrtValue)
  tensor_indices : List Int
  obj_args : List Nat
  obj_indices : List Int
  is_training_mode : Bool
  inplace_map : List Int
  invoke_id : String
  deriving DecidableEq, Repr

/-- Arguments of one `Backward` call, mirroring the header signature's
in-parameters. -/
structure BackwardDescriptor where
  func_name : String
  callback : Nat
  tensor_args : List (Option OrtValue)
  tensor_indices : List Int
  obj_args : List Nat
  obj_indices : List Int
  inplace_map : List Int
  invoke_id : String
  deriving DecidableEq, Repr

/-- Builds the forward frame from the descriptor and the marshaled
positional arguments: `requires_grads`, `is_training_mode` and
`inplace_map` are passed through unchanged. -/
def mkForwardFrame (d : ForwardDescriptor) (args : List PyValue) : ForwardFrame :=
  ⟨args, d.requires_grads, d.is_training_mode, d.inplace_map, d.invoke_id⟩

/-- Builds the backward frame from the descriptor and the marshaled
positional arguments: only `inplace_map` is passed through. -/
def mkBackwardFrame (d : BackwardDescriptor) (args : List PyValue) : BackwardFrame :=
  ⟨args, d.inplace_map, d.invoke_id⟩

/-- Modelled from the spec: converts one managed return value back to a
native tensor value, preserving the "no value" sentinel as an absent
tensor; a value that is not a tensor and not the sentinel fails with a
`resultConversion` error naming the positional index and `invoke_id`. -/
def unmarshalValue (invoke_id : String) (idx : Nat) :
    PyValue → Except BridgeError (Option OrtValue)
  | PyValue.pyNone => Except.ok none
  | PyValue.tensor v => Except.ok (some v)
  | PyValue.obj _ => Except.error (BridgeError.resultConversion idx invoke_id)

/-- Converts the managed return values starting at positional index
`idx`, in order. -/
def unmarshalFrom (invoke_id : String) (idx : Nat) :
    List PyValue → Except BridgeError (List (Option OrtValue))
  | [] => Except.ok []
  | x :: xs =>
      match unmarshalValue invoke_id idx x with
      | Except.error e => Except.error e
      | Except.ok v =>
          match unmarshalFrom invoke_id (idx + 1) xs with
          | Except.error e => Except.error e
          | Except.ok vs => Except.ok (v :: vs)

/-- Modelled from the spec: the result unmarshaler — converts each
managed return value back into a native tensor value, in the order the
managed function emitted them, with no reordering and no filtering. -/
def unmarshalReturns (invoke_id : String) (outputs : List PyValue) :
    Except BridgeError (List (Option OrtValue)) :=
  unmarshalFrom invoke_id 0 outputs

/-- Results a successful `Forward` delivers through its out-parameters:
the differentiation-context handle (`diff_ctx`) and the returned native
tensor values (`returned_ortvalues`). -/
structure ForwardOut where
  diff_ctx : Nat
  returned_ortvalues : List (Option OrtValue)
  deriving DecidableEq, Repr

/-- Results a successful `Backward` delivers through its out-parameter
(`return_args`). -/
structure BackwardOut where
  return_args : List (Option OrtValue)
  deriving DecidableEq, Repr

/-- Modelled from the spec: `TorchProxy::Forward`.  The index-partition
check runs locally first and a violation fails with `argumentLayout`
before anything crosses the boundary.  Otherwise the call acquires the
global lock, marshals the frame (each present tensor argument becomes a
bridge-created wrapper object whose reference count is bumped on
creation and guarded by a `PythonObjectPtr`), invokes the managed target
once, converts a raised managed error into `managedInvocation` carrying
the target name and `invoke_id`, unmarshals the outputs on success,
retains the differentiation context for the caller, and on every exit
path runs all guards' deleters exactly once and releases the lock before
returning.  `f` is the managed forward target reached through
`d.callback`. -/
def Forward (f : ForwardFrame → ForwardOutcome) (d : ForwardDescriptor)
    (s : BridgeState) : Except BridgeError ForwardOut × BridgeState :=
  if isPartition d.tensor_indices d.obj_indices = false then
    (Except.error (BridgeError.argumentLayout d.func_name), s)
  else
    match marshalArgs d.tensor_args d.tensor_indices d.obj_args d.obj_indices with
    | none => (Except.error (BridgeError.argumentLayout d.func_name), s)
    | some args =>
        let wrappers := List.range' s.nextHandle (presentTensors d.tensor_args)
        let rc1 := incRefAll s.rc wrappers
        let ev1 := s.events ++ [Event.lockAcquired, Event.managedCall d.func_name d.invoke_id]
        match f (mkForwardFrame d args) with
        | ForwardOutcome.raised msg =>
            (Except.error (BridgeError.managedInvocation d.func_name d.invoke_id msg),
             ⟨false, releaseGuards rc1 wrappers,
              s.nextHandle + presentTensors d.tensor_args,
              ev1 ++ [Event.lockReleased]⟩)
        | ForwardOutcome.ok ctx outputs =>
            let tupleH := s.nextHandle + presentTensors d.tensor_args
            let rc2 := incRef rc1 tupleH
            match unmarshalReturns d.invoke_id outputs with
            | Except.error e =>
                (Except.error e,
                 ⟨false, PythonObjectDeleter (releaseGuards rc2 wrappers) tupleH,
                  tupleH + 1, ev1 ++ [Event.lockReleased]⟩)
            | Except.ok rs =>
                (Except.ok ⟨ctx, rs⟩,
                 ⟨false, PythonObjectDeleter (releaseGuards (incRef rc2 ctx) wrappers) tupleH,
                  tupleH + 1, ev1 ++ [Event.lockReleased]⟩)

/-- Modelled from the spec: `TorchProxy::Backward`.  Same structure as
`Forward` but the frame carries only `inplace_map` besides the
positional arguments, no differentiation context is produced or
retained, and the gradient outputs are unmarshaled into `return_args`.
`f` is the managed backward target reached through `d.callback`. -/
def Backward (f : BackwardFrame → BackwardOutcome) (d : BackwardDescriptor)
    (s : BridgeState) : Except BridgeError BackwardOut × BridgeState :=
  if isPartition d.tensor_indices d.obj_indices = false then
    (Except.error (BridgeError.argumentLayout d.func_name), s)
  else
    match marshalArgs d.tensor_args d.tensor_indices d.obj_args d.obj_indices with
    | none => (Except.error (BridgeError.argumentLayout d.func_name), s)
    | some args =>
        let wrappers := List.range' s.nextHandle (presentTensors d.tensor_args)
        let rc1 := incRefAll s.rc wrappers
        let ev1 := s.events ++ [Event.lockAcquired, Event.managedCall d.func_name d.invoke_id]
        match f (mkBackwardFrame d args) with
        | BackwardOutcome.raised msg =>
            (Except.error (BridgeError.managedInvocation d.func_name d.invoke_id msg),
             ⟨false, releaseGuards rc1 wrappers,
              s.nextHandle + presentTensors d.tensor_args,
              ev1 ++ [Event.lockReleased]⟩)
        | BackwardOutcome.ok outputs =>
            let tupleH := s.nextHandle + presentTensors d.tensor_args
            let rc2 := incRef rc1 tupleH
            match unmarshalReturns d.invoke_id outputs with
            | Except.error e =>
                (Except.error e,
                 ⟨false, PythonObjectDeleter (releaseGuards rc2 wrappers) tupleH,
                  tupleH + 1, ev1 ++ [Event.lockReleased]⟩)
            | Except.ok rs =>
                (Except.ok ⟨rs⟩,
                 ⟨false, PythonObjectDeleter (releaseGuards rc2 wrappers) tupleH,
                  tupleH + 1, ev1 ++ [Event.lockReleased]⟩)

/-! ## Concurrency model

Multiple native threads may call `Forward`/`Backward` concurrently; every
call acquires the bridge's single `std::mutex` (`mutex_`) before entering
the managed runtime and releases it on exit.  The interleaving semantics
below has one label per atomic boundary action of a thread, and the
managed side keeps an instrumented entry counter. -/

/-- Phase of one native thread with respect to the bridge. -/
inductive Phase where
  | outside
  | waiting
  | inManaged
  deriving DecidableEq, Repr

/-- Global state of the concurrency model: each thread's phase, the
current owner of `mutex_` (none when the mutex is free), and the managed
side's instrumented call counter, incremented on entry into the managed
runtime and decremented on exit. -/
structure ConcState where
  phase : Nat → Phase
  owner : Option Nat
  managedCount : Nat

/-- Initial state: every thread outside, mutex free, counter zero. -/
def initConc : ConcState :=
  ⟨fun _ => Phase.outside, none, 0⟩

/-- Modelled from the spec: atomic steps of the bridge's locking
discipline.  A thread entering `Forward`/`Backward` first waits on
`mutex_`; acquisition succeeds only while no thread owns the mutex and
puts the thread inside the managed runtime, bumping the managed-side
counter; on return the owning thread leaves the managed runtime and
releases the mutex on every exit path. -/
inductive ConcStep : ConcState → ConcState → Prop where
  | callEnter (t : Nat) (s : ConcState) :
      s.phase t = Phase.outside →
      ConcStep s ⟨Function.update s.phase t Phase.waiting, s.owner, s.managedCount⟩
  | acquire (t : Nat) (s : ConcState) :
      s.phase t = Phase.waiting →
      s.owner = none →
      ConcStep s ⟨Function.update s.phase t Phase.inManaged, some t, s.managedCount + 1⟩
  | release (t : Nat) (s : ConcState) :
      s.phase t = Phase.inManaged →
      s.owner = some t →
      ConcStep s ⟨Function.update s.phase t Phase.outside, none, s.managedCount - 1⟩

/-- States reachable from `initConc` by interleaving thread steps. -/
inductive Reach : ConcState → Prop where
  | init : Reach initConc
  | step {s s' : ConcState} : Reach s → ConcStep s s' → Reach s'

/-- The inductive invariant of the locking discipline: the counter is 1
exactly when someone owns the mutex, the owner is the unique thread
inside the managed runtime, and with the mutex free nobody is inside. -/
def LockInv (s : ConcState) : Prop :=
  (s.owner = none → s.managedCount = 0 ∧ ∀ t, s.phase t ≠ Phase.inManaged) ∧
  (∀ t, s.owner = some t →
    s.managedCount = 1 ∧ s.phase t = Phase.inManaged ∧
    ∀ u, s.phase u = Phase.inManaged → u = t)

/-! ## Concrete instances used to exercise the model -/

/-- A reference-count heap with every count zero. -/
def rcZero : RefCounts := fun _ => 0

/-- A quiescent bridge state: lock free, zero counts, empty event log. -/
def s0 : BridgeState := ⟨false, rcZero, 100, []⟩

/-- A managed forward target that returns context handle 42 and echoes
its positional arguments. -/
def fwdEcho : ForwardFrame → ForwardOutcome :=
  fun fr => ForwardOutcome.ok 42 fr.args

/-- The same managed forward target written as a separate definition. -/
def fwdEcho2 : ForwardFrame → ForwardOutcome :=
  fun fr => ForwardOutcome.ok 42 fr.args

/-- A managed forward target that always raises. -/
def fwdRaise : ForwardFrame → ForwardOutcome :=
  fun _ => ForwardOutcome.raised "boom"

/-- A managed backward target that always raises. -/
def bwdRaise : BackwardFrame → BackwardOutcome :=
  fun _ => BackwardOutcome.raised "boom"

/-- A managed backward target that echoes its first positional argument. -/
def bwdEchoFirst : BackwardFrame → BackwardOutcome :=
  fun fr => BackwardOutcome.ok [fr.args.getD 0 PyValue.pyNone]

/-- A managed forward target that echoes the two tensor slots (positions
0 and 2) of the spec's absent-slot example. -/
def fwdEchoSlots02 : ForwardFrame → ForwardOutcome :=
  fun fr => ForwardOutcome.ok 42 [fr.args.getD 0 PyValue.pyNone, fr.args.getD 2 PyValue.pyNone]

/-- A well-formed forward call: one present tensor slot at position 0. -/
def d0 : ForwardDescriptor :=
  ⟨"MyFunc", 7, [1], [some ⟨5⟩], [0], [], [], true, [], "fw-0"⟩

/-- A well-formed backward call: tensor slot at position 0, object slot
(the differentiation context, handle 42) at position 1. -/
def b5 : BackwardDescriptor :=
  ⟨"MyFuncBack", 7, [some ⟨3⟩], [0], [42], [1], [], "bw-5"⟩

/-- A forward call whose index lists overlap at position 0 (not a
partition of `[0, N)`). -/
def dBad : ForwardDescriptor :=
  ⟨"BadFunc", 7, [1], [some ⟨5⟩], [0], [9], [0], true, [], "fw-bad"⟩

/-- A backward call whose index lists overlap at position 0. -/
def bBad : BackwardDescriptor :=
  ⟨"BadFuncBack", 7, [some ⟨5⟩], [0], [9], [0], [], "bw-bad"⟩

/-- The spec's absent-slot example: `tensor_args = [None, T1]`,
`tensor_indices = [0, 2]`, `obj_indices = [1]`, one object handle. -/
def d6 : ForwardDescriptor :=
  ⟨"EchoFunc", 7, [0, 1], [none, some ⟨1⟩], [0, 2], [5], [1], true, [], "fw-6"⟩

/-! ## Helper lemmas -/

theorem runGetInstance_some (n : Nat) (i : Nat) :
    runGetInstance n ⟨some i⟩ = (⟨some i⟩, List.replicate n i) := by
  induction n with
  | zero => rfl
  | succ n ih => simp [runGetInstance, GetInstance, ih, List.replicate]

theorem lockInv_init : LockInv initConc := by
  constructor
  · intro _
    exact ⟨rfl, fun t h => by simp [initConc] at h⟩
  · intro t h
    simp [initConc] at h

theorem lockInv_step {s s' : ConcState} (hs : LockInv s) (hstep : ConcStep s s') :
    LockInv s' := by
  obtain ⟨hfree, hown⟩ := hs
  cases hstep with
  | callEnter t s hph =>
      refine ⟨fun hn => ?_, fun u hu => ?_⟩
      · obtain ⟨hc, hno⟩ := hfree hn
        refine ⟨hc, fun u => ?_⟩
        by_cases hu : u = t
        · subst hu; simp [Function.update]
        · simpa [Function.update, hu] using hno u
      · obtain ⟨hc, hin, huniq⟩ := hown u hu
        refine ⟨hc, ?_, ?_⟩
        · have : u ≠ t := fun he => by
            subst he; rw [hph] at hin; exact Phase.noConfusion hin
          simpa [Function.update, this]
        · intro w hw
          by_cases hwt : w = t
          · subst hwt; simp [Function.update] at hw
          · exact huniq w (by simpa [Function.update, hwt] using hw)
  | acquire t s hph hfr =>
      refine ⟨fun hn => by simp at hn, fun u hu => ?_⟩
      have hut : u = t := by
        have := hu
        simp at this
        omega
      subst hut
      obtain ⟨hc, hno⟩ := hfree hfr
      refine ⟨by simp [hc], by simp [Function.update], fun w hw => ?_⟩
      by_cases hwt : w = u
      · exact hwt
      · exact absurd (by simpa [Function.update, hwt] using hw) (hno w)
  | release t s hph howner =>
      refine ⟨fun _ => ?_, fun u hu => by simp at hu⟩
      obtain ⟨hc, hin, huniq⟩ := hown t howner
      refine ⟨by simp [hc], fun u => ?_⟩
      by_cases hut : u = t
      · subst hut; simp [Function.update]
      · intro hw
        exact hut (huniq u (by simpa [Function.update, hut] using hw))

theorem lockInv_reach {s : ConcState} (h : Reach s) : LockInv s := by
  induction h with
  | init => exact lockInv_init
  | step _ hstep ih => exact lockInv_step ih hstep

theorem incRefAll_apply (rc : RefCounts) (hs : List Nat) (x : Nat) :
    incRefAll rc hs x = rc x + (hs.count x : Int) := by
  induction hs generalizing rc with
  | nil => simp [incRefAll]
  | cons h t ih =>
      have := ih (incRef rc h)
      simp only [incRefAll, List.foldl_cons] at this ⊢
      rw [this, incRef]
      by_cases hx : x = h <;> simp [hx, List.count_cons] <;> push_cast <;> omega

theorem releaseGuards_apply (rc : RefCounts) (hs : List Nat) (x : Nat) :
    releaseGuards rc hs x = rc x - (hs.count x : Int) := by
  induction hs generalizing rc with
  | nil => simp [releaseGuards]
  | cons h t ih =>
      have := ih (PythonObjectDeleter rc h)
      simp only [releaseGuards, List.foldl_cons] at this ⊢
      rw [this, PythonObjectDeleter, decRef]
      by_cases hx : x = h <;> simp [hx, List.count_cons] <;> push_cast <;> omega

theorem mapM_option_get {α β : Type} {l : List α} {g : α → Option β} {res : List β}
    (h : l.mapM g = some res) :
    res.length = l.length ∧ ∀ i a, l.get? i = some a → res.get? i = g a := by
  induction l generalizing res with
  | nil =>
      simp only [List.mapM_nil, pure, Option.some.injEq] at h
      subst h
      exact ⟨rfl, fun i a ha => by simp at ha⟩
  | cons x xs ih =>
      simp only [List.mapM_cons] at h
      cases hx : g x with
      | none => rw [hx] at h; simp at h
      | some y =>
          rw [hx] at h
          cases hxs : xs.mapM g with
          | none => rw [hxs] at h; simp at h
          | some ys =>
              rw [hxs] at h
              have h' : some (y :: ys) = some res := h
              obtain rfl : y :: ys = res := Option.some.inj h'
              obtain ⟨hlen, hget⟩ := ih hxs
              refine ⟨by simp [hlen], fun i a ha => ?_⟩
              cases i with
              | zero =>
                  simp only [List.get?_cons_zero, Option.some.injEq] at ha
                  subst ha
                  simpa using hx.symm
              | succ i =>
                  simp only [List.get?_cons_succ] at ha ⊢
                  exact hget i a ha

theorem marshalArgs_get {tensor_args : List (Option OrtValue)} {tensor_indices : List Int}
    {obj_args : List Nat} {obj_indices : List Int} {args : List PyValue}
    (h : marshalArgs tensor_args tensor_indices obj_args obj_indices = some args)
    (i : Nat) (hi : i < tensor_indices.length + obj_indices.length) :
    args.get? i = marshalSlot tensor_args tensor_indices obj_args obj_indices i := by
  obtain ⟨_, hget⟩ := mapM_option_get h
  exact hget i i (List.get?_range hi)

theorem unmarshalFrom_ok_length {invoke_id : String} {idx : Nat} {xs : List PyValue}
    {rs : List (Option OrtValue)}
    (h : unmarshalFrom invoke_id idx xs = Except.ok rs) : rs.length = xs.length := by
  induction xs generalizing idx rs with
  | nil =>
      simp only [unmarshalFrom, Except.ok.injEq] at h
      subst h; rfl
  | cons x t ih =>
      rw [unmarshalFrom] at h
      cases hx : unmarshalValue invoke_id idx x with
      | error e => rw [hx] at h; exact absurd h (by simp)
      | ok v =>
          rw [hx] at h
          cases ht : unmarshalFrom invoke_id (idx + 1) t with
          | error e => rw [ht] at h; exact absurd h (by simp)
          | ok vs =>
              rw [ht] at h
              obtain rfl : v :: vs = rs := by simpa using h
              simp [ih ht]

theorem unmarshalFrom_ok_get {invoke_id : String} {idx : Nat} {xs : List PyValue}
    {rs : List (Option OrtValue)}
    (h : unmarshalFrom invoke_id idx xs = Except.ok rs) :
    ∀ k x, xs.get? k = some x →
      ∃ r, unmarshalValue invoke_id (idx + k) x = Except.ok r ∧ rs.get? k = some r := by
  induction xs generalizing idx rs with
  | nil => intro k x hk; simp at hk
  | cons y t ih =>
      rw [unmarshalFrom] at h
      cases hy : unmarshalValue invoke_id idx y with
      | error e => rw [hy] at h; exact absurd h (by simp)
      | ok v =>
          rw [hy] at h
          cases ht : unmarshalFrom invoke_id (idx + 1) t with
          | error e => rw [ht] at h; exact absurd h (by simp)
          | ok vs =>
              rw [ht] at h
              obtain rfl : v :: vs = rs := by simpa using h
              intro k x hk
              cases k with
              | zero =>
                  simp only [List.get?_cons_zero, Option.some.injEq] at hk
                  subst hk
                  exact ⟨v, by simpa using hy, rfl⟩
              | succ k =>
                  simp only [List.get?_cons_succ] at hk ⊢
                  obtain ⟨r, hr, hrs⟩ := ih ht k x hk
                  exact ⟨r, by simpa [Nat.add_assoc, Nat.add_comm 1 k] using hr, hrs⟩

theorem Forward_layout_eq (f : ForwardFrame → ForwardOutcome) (d : ForwardDescriptor)
    (s : BridgeState) (hp : isPartition d.tensor_indices d.obj_indices = false) :
    Forward f d s = (Except.error (BridgeError.argumentLayout d.func_name), s) := by
  unfold Forward
  simp [hp]

theorem Forward_raised_eq (f : ForwardFrame → ForwardOutcome) (d : ForwardDescriptor)
    (s : BridgeState) (args : List PyValue) (msg : String)
    (hp : isPartition d.tensor_indices d.obj_indices = true)
    (hm : marshalArgs d.tensor_args d.tensor_indices d.obj_args d.obj_indices = some args)
    (hf : f (mkForwardFrame d args) = ForwardOutcome.raised msg) :
    Forward f d s =
      (Except.error (BridgeError.managedInvocation d.func_name d.invoke_id msg),
       ⟨false,
        releaseGuards (incRefAll s.rc (List.range' s.nextHandle (presentTensors d.tensor_args)))
          (List.range' s.nextHandle (presentTensors d.tensor_args)),
        s.nextHandle + presentTensors d.tensor_args,
        s.events ++ [Event.lockAcquired, Event.managedCall d.func_name d.invoke_id,
          Event.lockReleased]⟩) := by
  unfold Forward
  simp [hp, hm, hf]

theorem Forward_ok_eq (f : ForwardFrame → ForwardOutcome) (d : ForwardDescriptor)
    (s : BridgeState) (args outputs : List PyValue) (ctx : Nat)
    (rs : List (Option OrtValue))
    (hp : isPartition d.tensor_indices d.obj_indices = true)
    (hm : marshalArgs d.tensor_args d.tensor_indices d.obj_args d.obj_indices = some args)
    (hf : f (mkForwardFrame d args) = ForwardOutcome.ok ctx outputs)
    (hu : unmarshalReturns d.invoke_id outputs = Except.ok rs) :
    Forward f d s =
      (Except.ok ⟨ctx, rs⟩,
       ⟨false,
        PythonObjectDeleter
          (releaseGuards
            (incRef
              (incRef (incRefAll s.rc (List.range' s.nextHandle (presentTensors d.tensor_args)))
                (s.nextHandle + presentTensors d.tensor_args)) ctx)
            (List.range' s.nextHandle (presentTensors d.tensor_args)))
          (s.nextHandle + presentTensors d.tensor_args),
        s.nextHandle + presentTensors d.tensor_args + 1,
        s.events ++ [Event.lockAcquired, Event.managedCall d.func_name d.invoke_id,
          Event.lockReleased]⟩) := by
  unfold Forward
  simp [hp, hm, hf, hu]

theorem Forward_convError_eq (f : ForwardFrame → ForwardOutcome) (d : ForwardDescriptor)
    (s : BridgeState) (args outputs : List PyValue) (ctx : Nat) (e : BridgeError)
    (hp : isPartition d.tensor_indices d.obj_indices = true)
    (hm : marshalArgs d.tensor_args d.tensor_indices d.obj_args d.obj_indices = some args)
    (hf : f (mkForwardFrame d args) = ForwardOutcome.ok ctx outputs)
    (hu : unmarshalReturns d.invoke_id outputs = Except.error e) :
    Forward f d s =
      (Except.error e,
       ⟨false,
        PythonObjectDeleter
          (releaseGuards
            (incRef (incRefAll s.rc (List.range' s.nextHandle (presentTensors d.tensor_args)))
              (s.nextHandle + presentTensors d.tensor_args))
            (List.range' s.nextHandle (presentTensors d.tensor_args)))
          (s.nextHandle + presentTensors d.tensor_args),
        s.nextHandle + presentTensors d.tensor_args + 1,
        s.events ++ [Event.lockAcquired, Event.managedCall d.func_name d.invoke_id,
          Event.lockReleased]⟩) := by
  unfold Forward
  simp [hp, hm, hf, hu]

theorem Forward_marshalNone_eq (f : ForwardFrame → ForwardOutcome) (d : ForwardDescriptor)
    (s : BridgeState)
    (hm : marshalArgs d.tensor_args d.tensor_indices d.obj_args d.obj_indices = none) :
    Forward f d s = (Except.error (BridgeError.argumentLayout d.func_name), s) := by
  unfold Forward
  by_cases hp : isPartition d.tensor_indices d.obj_indices
  · simp [hp, hm]
  · simp [Bool.not_eq_true] at hp
    simp [hp]

theorem Backward_layout_eq (f : BackwardFrame → BackwardOutcome) (d : BackwardDescriptor)
    (s : BridgeState) (hp : isPartition d.tensor_indices d.obj_indices = false) :
    Backward f d s = (Except.error (BridgeError.argumentLayout d.func_name), s) := by
  unfold Backward
  simp [hp]

theorem Backward_raised_eq (f : BackwardFrame → BackwardOutcome) (d : BackwardDescriptor)
    (s : BridgeState) (args : List PyValue) (msg : String)
    (hp : isPartition d.tensor_indices d.obj_indices = true)
    (hm : marshalArgs d.tensor_args d.tensor_indices d.obj_args d.obj_indices = some args)
    (hf : f (mkBackwardFrame d args) = BackwardOutcome.raised msg) :
    Backward f d s =
      (Except.error (BridgeError.managedInvocation d.func_name d.invoke_id msg),
       ⟨false,
        releaseGuards (incRefAll s.rc (List.range' s.nextHandle (presentTensors d.tensor_args)))
          (List.range' s.nextHandle (presentTensors d.tensor_args)),
        s.nextHandle + presentTensors d.tensor_args,
        s.events ++ [Event.lockAcquired, Event.managedCall d.func_name d.invoke_id,
          Event.lockReleased]⟩) := by
  unfold Backward
  simp [hp, hm, hf]

theorem Backward_ok_eq (f : BackwardFrame → BackwardOutcome) (d : BackwardDescriptor)
    (s : BridgeState) (args outputs : List PyValue) (rs : List (Option OrtValue))
    (hp : isPartition d.tensor_indices d.obj_indices = true)
    (hm : marshalArgs d.tensor_args d.tensor_indices d.obj_args d.obj_indices = some args)
    (hf : f (mkBackwardFrame d args) = BackwardOutcome.ok outputs)
    (hu : unmarshalReturns d.invoke_id outputs = Except.ok rs) :
    Backward f d s =
      (Except.ok ⟨rs⟩,
       ⟨false,
        PythonObjectDeleter
          (releaseGuards
            (incRef (incRefAll s.rc (List.range' s.nextHandle (presentTensors d.tensor_args)))
              (s.nextHandle + presentTensors d.tensor_args))
            (List.range' s.nextHandle (presentTensors d.tensor_args)))
          (s.nextHandle + presentTensors d.tensor_args),
        s.nextHandle + presentTensors d.tensor_args + 1,
        s.events ++ [Event.lockAcquired, Event.managedCall d.func_name d.invoke_id,
          Event.lockReleased]⟩) := by
  unfold Backward
  simp [hp, hm, hf, hu]

theorem Backward_convError_eq (f : BackwardFrame → BackwardOutcome) (d : BackwardDescriptor)
    (s : BridgeState) (args outputs : List PyValue) (e : BridgeError)
    (hp : isPartition d.tensor_indices d.obj_indices = true)
    (hm : marshalArgs d.tensor_args d.tensor_indices d.obj_args d.obj_indices = some args)
    (hf : f (mkBackwardFrame d args) = BackwardOutcome.ok outputs)
    (hu : unmarshalReturns d.invoke_id outputs = Except.error e) :
    Backward f d s =
      (Except.error e,
       ⟨false,
        PythonObjectDeleter
          (releaseGuards
            (incRef (incRefAll s.rc (List.range' s.nextHandle (presentTensors d.tensor_args)))
              (s.nextHandle + presentTensors d.tensor_args))
            (List.range' s.nextHandle (presentTensors d.tensor_args)))
          (s.nextHandle + presentTensors d.tensor_args),
        s.nextHandle + presentTensors d.tensor_args + 1,
        s.events ++ [Event.lockAcquired, Event.managedCall d.func_name d.invoke_id,
          Event.lockReleased]⟩) := by
  unfold Backward
  simp [hp, hm, hf, hu]

theorem Backward_marshalNone_eq (f : BackwardFrame → BackwardOutcome) (d : BackwardDescriptor)
    (s : BridgeState)
    (hm : marshalArgs d.tensor_args d.tensor_indices d.obj_args d.obj_indices = none) :
    Backward f d s = (Except.error (BridgeError.argumentLayout d.func_name), s) := by
  unfold Backward
  by_cases hp : isPartition d.tensor_indices d.obj_indices
  · simp [hp, hm]
  · simp [Bool.not_eq_true] at hp
    simp [hp]

theorem Forward_rc_ok {f : ForwardFrame → ForwardOutcome} {d : ForwardDescriptor}
    {s : BridgeState} {out : ForwardOut} {s' : BridgeState}
    (h : Forward f d s = (Except.ok out, s')) (x : Nat) :
    s'.rc x = s.rc x + (if x = out.diff_ctx then 1 else 0) := by
  by_cases hp : isPartition d.tensor_indices d.obj_indices
  · cases hm : marshalArgs d.tensor_args d.tensor_indices d.obj_args d.obj_indices with
    | none =>
        rw [Forward_marshalNone_eq f d s hm] at h
        exact absurd (congrArg Prod.fst h) (by simp)
    | some args =>
        cases hf : f (mkForwardFrame d args) with
        | raised msg =>
            rw [Forward_raised_eq f d s args msg hp hm hf] at h
            exact absurd (congrArg Prod.fst h) (by simp)
        | ok ctx outputs =>
            cases hu : unmarshalReturns d.invoke_id outputs with
            | error e =>
                rw [Forward_convError_eq f d s args outputs ctx e hp hm hf hu] at h
                exact absurd (congrArg Prod.fst h) (by simp)
            | ok rs =>
                rw [Forward_ok_eq f d s args outputs ctx rs hp hm hf hu] at h
                rw [Prod.mk.injEq] at h
                obtain ⟨h1, h2⟩ := h
                obtain rfl : out = (⟨ctx, rs⟩ : ForwardOut) := by
                  simpa using h1.symm
                subst h2
                simp only [PythonObjectDeleter, decRef, incRef, releaseGuards_apply,
                  incRefAll_apply]
                split_ifs <;> omega
  · simp [Bool.not_eq_true] at hp
    rw [Forward_layout_eq f d s hp] at h
    exact absurd (congrArg Prod.fst h) (by simp)

theorem Forward_rc_error {f : ForwardFrame → ForwardOutcome} {d : ForwardDescriptor}
    {s : BridgeState} {e : BridgeError} {s' : BridgeState}
    (h : Forward f d s = (Except.error e, s')) (x : Nat) :
    s'.rc x = s.rc x := by
  by_cases hp : isPartition d.tensor_indices d.obj_indices
  · cases hm : marshalArgs d.tensor_args d.tensor_indices d.obj_args d.obj_indices with
    | none =>
        rw [Forward_marshalNone_eq f d s hm] at h
        obtain rfl : s = s' := congrArg Prod.snd h
        rfl
    | some args =>
        cases hf : f (mkForwardFrame d args) with
        | raised msg =>
            rw [Forward_raised_eq f d s args msg hp hm hf] at h
            obtain rfl := (congrArg Prod.snd h).symm
            simp only [releaseGuards_apply, incRefAll_apply]
            omega
        | ok ctx outputs =>
            cases hu : unmarshalReturns d.invoke_id outputs with
            | error e2 =>
                rw [Forward_convError_eq f d s args outputs ctx e2 hp hm hf hu] at h
                obtain rfl := (congrArg Prod.snd h).symm
                simp only [PythonObjectDeleter, decRef, incRef, releaseGuards_apply,
                  incRefAll_apply]
                split_ifs <;> omega
            | ok rs =>
                rw [Forward_ok_eq f d s args outputs ctx rs hp hm hf hu] at h
                exact absurd (congrArg Prod.fst h) (by simp)
  · simp [Bool.not_eq_true] at hp
    rw [Forward_layout_eq f d s hp] at h
    obtain rfl : s = s' := congrArg Prod.snd h
    rfl

theorem Backward_rc_ok {f : BackwardFrame → BackwardOutcome} {d : BackwardDescriptor}
    {s : BridgeState} {out : BackwardOut} {s' : BridgeState}
    (h : Backward f d s = (Except.ok out, s')) (x : Nat) :
    s'.rc x = s.rc x := by
  by_cases hp : isPartition d.tensor_indices d.obj_indices
  · cases hm : marshalArgs d.tensor_args d.tensor_indices d.obj_args d.obj_indices with
    | none =>
        rw [Backward_marshalNone_eq f d s hm] at h
        exact absurd (congrArg Prod.fst h) (by simp)
    | some args =>
        cases hf : f (mkBackwardFrame d args) with
        | raised msg =>
            rw [Backward_raised_eq f d s args msg hp hm hf] at h
            exact absurd (congrArg Prod.fst h) (by simp)
        | ok outputs =>
            cases hu : unmarshalReturns d.invoke_id outputs with
            | error e =>
                rw [Backward_convError_eq f d s args outputs e hp hm hf hu] at h
                exact absurd (congrArg Prod.fst h) (by simp)
            | ok rs =>
                rw [Backward_ok_eq f d s args outputs rs hp hm hf hu] at h
                obtain rfl := (congrArg Prod.snd h).symm
                simp only [PythonObjectDeleter, decRef, incRef, releaseGuards_apply,
                  incRefAll_apply]
                split_ifs <;> omega
  · simp [Bool.not_eq_true] at hp
    rw [Backward_layout_eq f d s hp] at h
    exact absurd (congrArg Prod.fst h) (by simp)

theorem Backward_rc_error {f : BackwardFrame → BackwardOutcome} {d : BackwardDescriptor}
    {s : BridgeState} {e : BridgeError} {s' : BridgeState}
    (h : Backward f d s = (Except.error e, s')) (x : Nat) :
    s'.rc x = s.rc x := by
  by_cases hp : isPartition d.tensor_indices d.obj_indices
  · cases hm : marshalArgs d.tensor_args d.tensor_indices d.obj_args d.obj_indices with
    | none =>
        rw [Backward_marshalNone_eq f d s hm] at h
        obtain rfl : s = s' := congrArg Prod.snd h
        rfl
    | some args =>
        cases hf : f (mkBackwardFrame d args) with
        | raised msg =>
            rw [Backward_raised_eq f d s args msg hp hm hf] at h
            obtain rfl := (congrArg Prod.snd h).symm
            simp only [releaseGuards_apply, incRefAll_apply]
            omega
        | ok outputs =>
            cases hu : unmarshalReturns d.invoke_id outputs with
            | error e2 =>
                rw [Backward_convError_eq f d s args outputs e2 hp hm hf hu] at h
                obtain rfl := (congrArg Prod.snd h).symm
                simp only [PythonObjectDeleter, decRef, incRef, releaseGuards_apply,
                  incRefAll_apply]
                split_ifs <;> omega
            | ok rs =>
                rw [Backward_ok_eq f d s args outputs rs hp hm hf hu] at h
                exact absurd (congrArg Prod.fst h) (by simp)
  · simp [Bool.not_eq_true] at hp
    rw [Backward_layout_eq f d s hp] at h
    obtain rfl : s = s' := congrArg Prod.snd h
    rfl

/-! ## Claims -/

/-- C1: Under the interleaving semantics of the bridge's locking
discipline, every reachable state has at most one thread inside the
managed runtime, and the instrumented managed-side call counter never
exceeds 1. -/
theorem claim_C1 (s : ConcState) (h : Reach s) :
    s.managedCount ≤ 1 ∧
    ∀ t u, s.phase t = Phase.inManaged → s.phase u = Phase.inManaged → t = u := by
  obtain ⟨hfree, hown⟩ := lockInv_reach h
  cases ho : s.owner with
  | none =>
      obtain ⟨hc, hno⟩ := hfree ho
      exact ⟨by omega, fun t u ht _ => absurd ht (hno t)⟩
  | some w =>
      obtain ⟨hc, _, huniq⟩ := hown w ho
      exact ⟨by omega, fun t u ht hu => (huniq t ht).trans (huniq u hu).symm⟩

/-- Witness for C1: the state reached after thread 0 enters a call and
acquires the mutex has counter 1, which does not exceed 1. -/
theorem claim_C1_witness :
    (⟨Function.update (Function.update initConc.phase 0 Phase.waiting) 0 Phase.inManaged,
      some 0, initConc.managedCount + 1⟩ : ConcState).managedCount ≤ 1 :=
  (claim_C1 _ (Reach.step (Reach.step Reach.init (ConcStep.callEnter 0 initConc rfl))
    (ConcStep.acquire 0 _ (by simp [initConc]) rfl))).1

/-- C2: Across every outcome of a `Forward` or `Backward` call, each
bridge-created guarded handle's reference count is decremented exactly
once when its guard's scope ends, so every handle's count returns to its
pre-call value plus exactly the handles the caller retained: on a
successful `Forward` only the returned `diff_ctx` gains one count, and
on every error (and on every `Backward` outcome) every count is exactly
its pre-call value. -/
theorem claim_C2 (f : ForwardFrame → ForwardOutcome) (g : BackwardFrame → BackwardOutcome)
    (d : ForwardDescriptor) (b : BackwardDescriptor) (s sb : BridgeState) :
    (∀ out s', Forward f d s = (Except.ok out, s') →
      ∀ x, s'.rc x = s.rc x + (if x = out.diff_ctx then 1 else 0)) ∧
    (∀ e s', Forward f d s = (Except.error e, s') → ∀ x, s'.rc x = s.rc x) ∧
    (∀ out s', Backward g b sb = (Except.ok out, s') → ∀ x, s'.rc x = sb.rc x) ∧
    (∀ e s', Backward g b sb = (Except.error e, s') → ∀ x, s'.rc x = sb.rc x) :=
  ⟨fun _ _ h => Forward_rc_ok h, fun _ _ h => Forward_rc_error h,
   fun _ _ h => Backward_rc_ok h, fun _ _ h => Backward_rc_error h⟩

/-- Witness for C2: after the successful echo `Forward`, the retained
context handle 42 has gained exactly one reference count. -/
theorem claim_C2_witness :
    (Forward fwdEcho d0 s0).2.rc 42 = s0.rc 42 + 1 := by
  have h := (claim_C2 fwdEcho bwdEchoFirst d0 b5 s0 s0).1 ⟨42, [some ⟨5⟩]⟩
    (Forward fwdEcho d0 s0).2 rfl 42
  simpa using h

/-- C3: Whenever `tensor_indices` and `obj_indices` do not partition
`[0, N)`, `Forward` and `Backward` fail with the local
`argumentLayout` error, leave the state untouched (in particular no
lock acquisition and no managed call happens), and the failure is never
a managed-runtime invocation error. -/
theorem claim_C3 (f : ForwardFrame → ForwardOutcome) (g : BackwardFrame → BackwardOutcome)
    (d : ForwardDescriptor) (b : BackwardDescriptor) (s sb : BridgeState)
    (hd : isPartition d.tensor_indices d.obj_indices = false)
    (hb : isPartition b.tensor_indices b.obj_indices = false) :
    Forward f d s = (Except.error (BridgeError.argumentLayout d.func_name), s) ∧
    (∀ n i m, (Forward f d s).1 ≠ Except.error (BridgeError.managedInvocation n i m)) ∧
    (Forward f d s).2.events = s.events ∧
    Backward g b sb = (Except.error (BridgeError.argumentLayout b.func_name), sb) ∧
    (∀ n i m, (Backward g b sb).1 ≠ Except.error (BridgeError.managedInvocation n i m)) ∧
    (Backward g b sb).2.events = sb.events := by
  have hF := Forward_layout_eq f d s hd
  have hB := Backward_layout_eq g b sb hb
  refine ⟨hF, ?_, ?_, hB, ?_, ?_⟩ <;> simp [hF, hB]

/-- Witness for C3: the overlapping layout `tensor_indices = [0]`,
`obj_indices = [0]` makes `Forward` fail locally with the layout error
and leave the state untouched. -/
theorem claim_C3_witness :
    Forward fwdEcho dBad s0 = (Except.error (BridgeError.argumentLayout "BadFunc"), s0) :=
  (claim_C3 fwdEcho bwdRaise dBad bBad s0 s0 (by decide) (by decide)).1

/-- C4: When the managed target raises, the bridge converts the failure
to `managedInvocation` carrying the target name and `invoke_id`, the
global lock is released before the error reaches the caller, and the
managed target was entered exactly once (no retry), for `Forward` and
`Backward` alike. -/
theorem claim_C4 (f : ForwardFrame → ForwardOutcome) (g : BackwardFrame → BackwardOutcome)
    (d : ForwardDescriptor) (b : BackwardDescriptor) (s sb : BridgeState)
    (args argsb : List PyValue) (msg msgb : String)
    (hpd : isPartition d.tensor_indices d.obj_indices = true)
    (hmd : marshalArgs d.tensor_args d.tensor_indices d.obj_args d.obj_indices = some args)
    (hfd : f (mkForwardFrame d args) = ForwardOutcome.raised msg)
    (hpb : isPartition b.tensor_indices b.obj_indices = true)
    (hmb : marshalArgs b.tensor_args b.tensor_indices b.obj_args b.obj_indices = some argsb)
    (hgb : g (mkBackwardFrame b argsb) = BackwardOutcome.raised msgb) :
    (Forward f d s).1 =
      Except.error (BridgeError.managedInvocation d.func_name d.invoke_id msg) ∧
    (Forward f d s).2.lockHeld = false ∧
    (Forward f d s).2.events = s.events ++
      [Event.lockAcquired, Event.managedCall d.func_name d.invoke_id, Event.lockReleased] ∧
    (Backward g b sb).1 =
      Except.error (BridgeError.managedInvocation b.func_name b.invoke_id msgb) ∧
    (Backward g b sb).2.lockHeld = false ∧
    (Backward g b sb).2.events = sb.events ++
      [Event.lockAcquired, Event.managedCall b.func_name b.invoke_id, Event.lockReleased] := by
  have hF := Forward_raised_eq f d s args msg hpd hmd hfd
  have hB := Backward_raised_eq g b sb argsb msgb hpb hmb hgb
  refine ⟨?_, ?_, ?_, ?_, ?_, ?_⟩ <;> simp [hF, hB]

/-- Witness for C4: a raising managed target makes `Forward` surface the
converted error with the target name and invoke id, with the lock
already released. -/
theorem claim_C4_witness :
    (Forward fwdRaise d0 s0).1 =
      Except.error (BridgeError.managedInvocation "MyFunc" "fw-0" "boom") ∧
    (Forward fwdRaise d0 s0).2.lockHeld = false := by
  have h := claim_C4 fwdRaise bwdRaise d0 b5 s0 s0 [PyValue.tensor ⟨5⟩]
    [PyValue.tensor ⟨3⟩, PyValue.obj 42] "boom" "boom"
    (by decide) (by decide) rfl (by decide) (by decide) rfl
  exact ⟨h.1, h.2.1⟩

/-- C5: A successful `Forward` hands the managed runtime's context
handle to the caller unchanged through `diff_ctx`, and a `Backward`
issued immediately afterwards carrying that same context succeeds
whenever its managed target and result conversion succeed. -/
theorem claim_C5 (f : ForwardFrame → ForwardOutcome) (d : ForwardDescriptor)
    (s : BridgeState) (args outputs : List PyValue) (ctx : Nat) (rs : List (Option OrtValue))
    (hp : isPartition d.tensor_indices d.obj_indices = true)
    (hm : marshalArgs d.tensor_args d.tensor_indices d.obj_args d.obj_indices = some args)
    (hf : f (mkForwardFrame d args) = ForwardOutcome.ok ctx outputs)
    (hu : unmarshalReturns d.invoke_id outputs = Except.ok rs) :
    (Forward f d s).1 = Except.ok ⟨ctx, rs⟩ ∧
    (∀ out, (Forward f d s).1 = Except.ok out → out.diff_ctx = ctx) ∧
    (∀ (g : BackwardFrame → BackwardOutcome) (b : BackwardDescriptor)
      (args2 outs2 : List PyValue) (rs2 : List (Option OrtValue)),
      ctx ∈ b.obj_args →
      isPartition b.tensor_indices b.obj_indices = true →
      marshalArgs b.tensor_args b.tensor_indices b.obj_args b.obj_indices = some args2 →
      g (mkBackwardFrame b args2) = BackwardOutcome.ok outs2 →
      unmarshalReturns b.invoke_id outs2 = Except.ok rs2 →
      (Backward g b (Forward f d s).2).1 = Except.ok ⟨rs2⟩) := by
  have hF := Forward_ok_eq f d s args outputs ctx rs hp hm hf hu
  refine ⟨by simp [hF], ?_, ?_⟩
  · intro out hout
    rw [hF] at hout
    have : (⟨ctx, rs⟩ : ForwardOut) = out := by simpa using hout
    rw [this.symm]
  · intro g b args2 outs2 rs2 _ hp2 hm2 hg hu2
    have hB := Backward_ok_eq g b ((Forward f d s).2) args2 outs2 rs2 hp2 hm2 hg hu2
    simp [hB]

/-- Witness for C5: the echo `Forward` returns context handle 42, and a
`Backward` carrying 42 among its object arguments succeeds right after
it. -/
theorem claim_C5_witness :
    (Backward bwdEchoFirst b5 (Forward fwdEcho d0 s0).2).1 =
      Except.ok ⟨[some ⟨3⟩]⟩ :=
  (claim_C5 fwdEcho d0 s0 [PyValue.tensor ⟨5⟩] [PyValue.tensor ⟨5⟩] 42 [some ⟨5⟩]
    (by decide) (by decide) rfl rfl).2.2 bwdEchoFirst b5
    [PyValue.tensor ⟨3⟩, PyValue.obj 42] [PyValue.tensor ⟨3⟩] [some ⟨3⟩]
    (by decide) (by decide) (by decide) rfl rfl

/-- C6: A tensor slot whose value is absent marshals to the managed
runtime's "no value" sentinel at its position — never to a tensor
wrapper — and the sentinel converts back to an absent tensor, so an
echoing callable returns the slot as absent again. -/
theorem claim_C6 (ta : List (Option OrtValue)) (ti : List Int) (oa : List Nat)
    (oi : List Int) (i j : Nat) (inv : String) (k : Nat)
    (hj : ti.indexOf? (Int.ofNat i) = some j)
    (ha : ta.get? j = some none) :
    marshalSlot ta ti oa oi i = some PyValue.pyNone ∧
    (∀ v, marshalSlot ta ti oa oi i ≠ some (PyValue.tensor v)) ∧
    (∀ args, marshalArgs ta ti oa oi = some args → i < ti.length + oi.length →
      args.get? i = some PyValue.pyNone) ∧
    unmarshalValue inv k PyValue.pyNone = Except.ok none := by
  have hslot : marshalSlot ta ti oa oi i = some PyValue.pyNone := by
    unfold marshalSlot
    rw [hj]
    dsimp only
    rw [ha]
  refine ⟨hslot, fun v => by simp [hslot], fun args hargs hi => ?_, rfl⟩
  rw [marshalArgs_get hargs i hi, hslot]

/-- Witness for C6: in the spec's example layout, the absent tensor at
position 0 marshals to the sentinel. -/
theorem claim_C6_witness :
    marshalSlot d6.tensor_args d6.tensor_indices d6.obj_args d6.obj_indices 0 =
      some PyValue.pyNone :=
  (claim_C6 d6.tensor_args d6.tensor_indices d6.obj_args d6.obj_indices 0 0 "fw-6" 0
    (by decide) rfl).1

/-- C7: A successfully converted return sequence has one native tensor
value per managed return value, in exactly the managed order, with a
returned sentinel preserved as an absent tensor; successful `Forward`
and `Backward` calls hand exactly that sequence back to the caller. -/
theorem claim_C7 (inv : String) (outs : List PyValue) (rs : List (Option OrtValue))
    (h : unmarshalReturns inv outs = Except.ok rs) :
    rs.length = outs.length ∧
    (∀ k v, outs.get? k = some (PyValue.tensor v) → rs.get? k = some (some v)) ∧
    (∀ k, outs.get? k = some PyValue.pyNone → rs.get? k = some none) ∧
    (∀ (f : ForwardFrame → ForwardOutcome) (d : ForwardDescriptor) (s : BridgeState)
      (args : List PyValue) (ctx : Nat), inv = d.invoke_id →
      isPartition d.tensor_indices d.obj_indices = true →
      marshalArgs d.tensor_args d.tensor_indices d.obj_args d.obj_indices = some args →
      f (mkForwardFrame d args) = ForwardOutcome.ok ctx outs →
      (Forward f d s).1 = Except.ok ⟨ctx, rs⟩) ∧
    (∀ (g : BackwardFrame → BackwardOutcome) (b : BackwardDescriptor) (sb : BridgeState)
      (args : List PyValue), inv = b.invoke_id →
      isPartition b.tensor_indices b.obj_indices = true →
      marshalArgs b.tensor_args b.tensor_indices b.obj_args b.obj_indices = some args →
      g (mkBackwardFrame b args) = BackwardOutcome.ok outs →
      (Backward g b sb).1 = Except.ok ⟨rs⟩) := by
  have hget := unmarshalFrom_ok_get h
  refine ⟨unmarshalFrom_ok_length h, ?_, ?_, ?_, ?_⟩
  · intro k v hk
    obtain ⟨r, hr, hrs⟩ := hget k _ hk
    have hrv : r = some v := by simpa [unmarshalValue] using hr.symm
    rw [hrs, hrv]
  · intro k hk
    obtain ⟨r, hr, hrs⟩ := hget k _ hk
    have : r = none := by simpa [unmarshalValue] using hr.symm
    rw [hrs, this]
  · intro f d s args ctx hinv hp hm hf
    subst hinv
    have hF := Forward_ok_eq f d s args outs ctx rs hp hm hf h
    simp [hF]
  · intro g b sb args hinv hp hm hg
    subst hinv
    have hB := Backward_ok_eq g b sb args outs rs hp hm hg h
    simp [hB]

/-- Witness for C7: the echo `Forward` hands back exactly the converted
managed outputs in order. -/
theorem claim_C7_witness :
    (Forward fwdEcho d0 s0).1 = Except.ok ⟨42, [some ⟨5⟩]⟩ :=
  (claim_C7 "fw-0" [PyValue.tensor ⟨5⟩] [some ⟨5⟩] rfl).2.2.2.1 fwdEcho d0 s0
    [PyValue.tensor ⟨5⟩] 42 rfl (by decide) (by decide) rfl

/-- C8: The forward frame additionally carries `requires_grads` (in the
tensor-slot order the caller supplied it in), `is_training_mode` and
`inplace_map` through unchanged, while the backward frame carries only
`inplace_map`: a backward frame is fully determined by its positional
arguments, `inplace_map` and `invoke_id`, each call invokes its managed
target exactly on the constructed frame, and the declared `Backward`
signature has an `inplace_map` parameter but neither a `requires_grads`
nor a training-mode parameter. -/
theorem claim_C8 :
    (∀ (d : ForwardDescriptor) (args : List PyValue),
      (mkForwardFrame d args).requires_grads = d.requires_grads ∧
      (mkForwardFrame d args).is_training_mode = d.is_training_mode ∧
      (mkForwardFrame d args).inplace_map = d.inplace_map) ∧
    (∀ (b : BackwardDescriptor) (args : List PyValue),
      (mkBackwardFrame b args).inplace_map = b.inplace_map) ∧
    (∀ (fr1 fr2 : BackwardFrame), fr1.args = fr2.args → fr1.inplace_map = fr2.inplace_map →
      fr1.invoke_id = fr2.invoke_id → fr1 = fr2) ∧
    (∀ (f1 f2 : ForwardFrame → ForwardOutcome) (d : ForwardDescriptor) (s : BridgeState),
      (∀ args, f1 (mkForwardFrame d args) = f2 (mkForwardFrame d args)) →
      Forward f1 d s = Forward f2 d s) ∧
    (∀ (g1 g2 : BackwardFrame → BackwardOutcome) (b : BackwardDescriptor) (sb : BridgeState),
      (∀ args, g1 (mkBackwardFrame b args) = g2 (mkBackwardFrame b args)) →
      Backward g1 b sb = Backward g2 b sb) ∧
    (⟨"requires_grads", CppType.vecInt64⟩ ∈ forwardParams ∧
     ⟨"is_training_mode", CppType.boolTy⟩ ∈ forwardParams ∧
     ⟨"inplace_map", CppType.vecInt64⟩ ∈ forwardParams) ∧
    (⟨"inplace_map", CppType.vecInt64⟩ ∈ backwardParams) ∧
    (∀ p ∈ backwardParams, p.pname ≠ "requires_grads" ∧ p.pname ≠ "is_training_mode") := by
  refine ⟨fun d args => ⟨rfl, rfl, rfl⟩, fun b args => rfl, ?_, ?_, ?_, by decide, by decide, by decide⟩
  · intro fr1 fr2 h1 h2 h3
    cases fr1
    cases fr2
    simp_all
  · intro f1 f2 d s hag
    unfold Forward
    by_cases hp : isPartition d.tensor_indices d.obj_indices
    · cases hm : marshalArgs d.tensor_args d.tensor_indices d.obj_args d.obj_indices with
      | none => simp [hp, hm]
      | some args => simp [hp, hm, hag args]
    · simp [Bool.not_eq_true] at hp
      simp [hp]
  · intro g1 g2 b sb hag
    unfold Backward
    by_cases hp : isPartition b.tensor_indices b.obj_indices
    · cases hm : marshalArgs b.tensor_args b.tensor_indices b.obj_args b.obj_indices with
      | none => simp [hp, hm]
      | some args => simp [hp, hm, hag args]
    · simp [Bool.not_eq_true] at hp
      simp [hp]

/-- Witness for C8: two forward targets agreeing on the constructed
frames yield identical `Forward` calls. -/
theorem claim_C8_witness :
    Forward fwdEcho d0 s0 = Forward fwdEcho2 d0 s0 :=
  claim_C8.2.2.2.1 fwdEcho fwdEcho2 d0 s0 (fun _ => rfl)

/-- C9: `GetInstance` is a lazily initialized process-wide singleton:
before the first call no instance exists, every call in any sequence of
`n ≥ 1` calls returns the same instance id 0, the state afterwards holds
exactly that one instance, a repeated call returns the same id from any
state, and the header declares the constructor and destructor private
and the copy/assignment/move special members deleted, so no other
instance can be created. -/
theorem claim_C9 (n : Nat) (hn : 1 ≤ n) :
    (runGetInstance n ⟨none⟩).2 = List.replicate n 0 ∧
    (runGetInstance n ⟨none⟩).1 = ⟨some 0⟩ ∧
    (⟨none⟩ : SingletonState).inst = none ∧
    (∀ s : SingletonState, (GetInstance ((GetInstance s).1)).2 = (GetInstance s).2) ∧
    ⟨"TorchProxy", Access.priv, false⟩ ∈ torchProxyMembers ∧
    ⟨"~TorchProxy", Access.priv, false⟩ ∈ torchProxyMembers ∧
    ⟨"TorchProxy(const TorchProxy&)", Access.priv, true⟩ ∈ torchProxyMembers ∧
    ⟨"operator=(const TorchProxy&)", Access.priv, true⟩ ∈ torchProxyMembers ∧
    ⟨"TorchProxy(TorchProxy&&)", Access.priv, true⟩ ∈ torchProxyMembers ∧
    ⟨"operator=(TorchProxy&&)", Access.priv, true⟩ ∈ torchProxyMembers := by
  obtain ⟨m, rfl⟩ : ∃ m, n = m + 1 := ⟨n - 1, by omega⟩
  refine ⟨?_, ?_, rfl, ?_, by decide, by decide, by decide, by decide, by decide, by decide⟩
  · simp [runGetInstance, GetInstance, runGetInstance_some, List.replicate]
  · simp [runGetInstance, GetInstance, runGetInstance_some]
  · intro s
    rcases s with ⟨_ | i⟩ <;> rfl

/-- Witness for C9: two successive calls both return instance 0. -/
theorem claim_C9_witness :
    (runGetInstance 2 ⟨none⟩).2 = List.replicate 2 0 :=
  (claim_C9 2 (by decide)).1

/-- C10: `Forward` and `Backward` are declared returning `void` with the
results delivered through the `diff_ctx` / `returned_ortvalues` /
`return_args` out-parameters, and in the behavioural model every call
either throws one of the three bridge errors or succeeds delivering its
outputs — there is no status-code return channel. -/
theorem claim_C10 :
    forwardRet = CppType.void ∧
    backwardRet = CppType.void ∧
    ⟨"diff_ctx", CppType.voidPtrPtr⟩ ∈ forwardParams ∧
    ⟨"returned_ortvalues", CppType.vecOrtValueRef⟩ ∈ forwardParams ∧
    ⟨"return_args", CppType.vecOrtValueRef⟩ ∈ backwardParams ∧
    (∀ (f : ForwardFrame → ForwardOutcome) (d : ForwardDescriptor) (s : BridgeState),
      (∃ e, (Forward f d s).1 = Except.error e) ∨ ∃ out, (Forward f d s).1 = Except.ok out) ∧
    (∀ (g : BackwardFrame → BackwardOutcome) (b : BackwardDescriptor) (sb : BridgeState),
      (∃ e, (Backward g b sb).1 = Except.error e) ∨ ∃ out, (Backward g b sb).1 = Except.ok out) ∧
    (∀ e : BridgeError,
      (∃ n, e = BridgeError.argumentLayout n) ∨
      (∃ n i m, e = BridgeError.managedInvocation n i m) ∨
      (∃ k i, e = BridgeError.resultConversion k i)) := by
  refine ⟨rfl, rfl, by decide, by decide, by decide, ?_, ?_, ?_⟩
  · intro f d s
    cases h : (Forward f d s).1 with
    | error e => exact Or.inl ⟨e, rfl⟩
    | ok out => exact Or.inr ⟨out, rfl⟩
  · intro g b sb
    cases h : (Backward g b sb).1 with
    | error e => exact Or.inl ⟨e, rfl⟩
    | ok out => exact Or.inr ⟨out, rfl⟩
  · intro e
    cases e with
    | argumentLayout n => exact Or.inl ⟨n, rfl⟩
    | managedInvocation n i m => exact Or.inr (Or.inl ⟨n, i, m, rfl⟩)
    | resultConversion k i => exact Or.inr (Or.inr ⟨k, i, rfl⟩)

end TorchBridge
